/-
Verification of the MCP-manager core against its specification.

The definitions below are a shallow embedding of the Python source:
  - access/permission_engine.py  (PermissionEngine)
  - access/client_identifier.py  (ClientIdentifier)
  - access/middleware.py         (AccessControlMiddleware)
  - routing/cache.py             (ResponseCache)
  - routing/router.py            (MCPRouter)
  - routing/aggregator.py        (ResponseAggregator)
  - server/manager.py            (MCPServerManager)
  - core/manager.py              (MCPManager front-end handlers)

Python dicts are modelled as insertion-ordered association lists, machine
time as Nat, exceptions as Option/Except, and awaited backend calls as
explicit outcome values.
-/
import Mathlib

/-! ## Model of Python fnmatch (POSIX, no case folding)

The Python code calls `fnmatch.fnmatch(name, pattern)`, which translates the
pattern to a regex where `*` matches any sequence, `?` any single character,
and a class `[...]` one character from a set (leading `!` complements; a `]`
first in the body is literal; an unclosed `[` is a literal `[`; `a-b` inside
a body is a range).  We model the matcher directly by recursion on pattern
and subject string. -/

/-- Scan for the closing `]` of a character class, returning the body before
it and the remainder of the pattern after it; `none` when unclosed. -/
def findClosing : List Char → Option (List Char × List Char)
  | [] => none
  | c :: rest =>
    if c = ']' then some ([], rest)
    else
      match findClosing rest with
      | some (b, r) => some (c :: b, r)
      | none => none

theorem findClosing_rest_lt : ∀ (l b r : List Char),
    findClosing l = some (b, r) → r.length < l.length := by
  intro l
  induction l with
  | nil => intro b r h; simp [findClosing] at h
  | cons c rest ih =>
    intro b r h
    simp only [findClosing] at h
    split at h
    · cases h; simp
    · cases hr : findClosing rest with
      | none => rw [hr] at h; cases h
      | some p =>
        rw [hr] at h
        cases h
        have := ih p.1 p.2 (by rw [hr])
        simp only [List.length_cons]
        omega

/-- Extract a character class starting right after a `[`: returns the
complement flag, the class body and the rest of the pattern, mirroring the
special cases of `fnmatch.translate` (`!` complements, a first `]` is
literal, unclosed classes fail). -/
def extractClassBody (l : List Char) : Option (Bool × List Char × List Char) :=
  if l.head? = some '!' then
    if l.tail.head? = some ']' then
      match findClosing l.tail.tail with
      | some (b, r) => some (true, ']' :: b, r)
      | none => none
    else
      match findClosing l.tail with
      | some (b, r) => some (true, b, r)
      | none => none
  else
    if l.head? = some ']' then
      match findClosing l.tail with
      | some (b, r) => some (false, ']' :: b, r)
      | none => none
    else
      match findClosing l with
      | some (b, r) => some (false, b, r)
      | none => none

theorem extractClassBody_rest_lt (l : List Char) (neg : Bool) (b r : List Char)
    (h : extractClassBody l = some (neg, b, r)) : r.length < l.length := by
  have htail : l.tail.length ≤ l.length := by
    cases l <;> simp
  have htail2 : l.tail.tail.length ≤ l.length := by
    cases l with
    | nil => simp
    | cons x xs => cases xs <;> simp <;> omega
  unfold extractClassBody at h
  split_ifs at h <;>
    (split at h <;> [skip; cases h]) <;>
    rename_i heq <;>
    cases h <;>
    have := findClosing_rest_lt _ _ _ heq <;>
    omega

/-- Does character `c` match a class body (single characters and `a-b`
ranges)? -/
def classBodyMatches (c : Char) : List Char → Bool
  | [] => false
  | a :: '-' :: b :: rest =>
    (decide (a ≤ c) && decide (c ≤ b)) || classBodyMatches c rest
  | a :: rest => (c == a) || classBodyMatches c rest

/-- The fnmatch pattern matcher over explicit character lists. -/
def globMatch : List Char → List Char → Bool
  | [], s => s.isEmpty
  | '*' :: ps, s =>
    globMatch ps s ||
      (match s with
       | [] => false
       | _ :: t => globMatch ('*' :: ps) t)
  | '?' :: ps, s =>
    (match s with
     | [] => false
     | _ :: t => globMatch ps t)
  | '[' :: ps, s =>
    (match hcls : extractClassBody ps with
     | some (neg, body, rest) =>
       (match s with
        | [] => false
        | c :: t => (classBodyMatches c body != neg) && globMatch rest t)
     | none =>
       (match s with
        | [] => false
        | c :: t => (c == '[') && globMatch ps t))
  | p :: ps, s =>
    (match s with
     | [] => false
     | c :: t => (p == c) && globMatch ps t)
termination_by p s => p.length + s.length
decreasing_by
  all_goals simp_wf
  all_goals try omega
  all_goals
    have := extractClassBody_rest_lt _ _ _ _ hcls
    omega

/-- Model of `fnmatch.fnmatch(name, pattern)` on POSIX (where
`os.path.normcase` is the identity, so no case folding happens). -/
def fnmatch (name pat : String) : Bool :=
  globMatch pat.data name.data

/-! ## Small string utilities used by the embedding -/

/-- Split on the first occurrence of `sep`, Python `s.split(sep, 1)` when it
succeeds; `none` when `sep` does not occur (Python `sep in s` is false). -/
def splitOnceChar (sep : Char) : List Char → Option (List Char × List Char)
  | [] => none
  | c :: cs =>
    if c = sep then some ([], cs)
    else
      match splitOnceChar sep cs with
      | some (a, b) => some (c :: a, b)
      | none => none

/-- Strip a literal leading sequence, Python `s.startswith(p)` plus `s[len(p):]`. -/
def stripPfx : List Char → List Char → Option (List Char)
  | [], l => some l
  | _ :: _, [] => none
  | p :: ps, c :: cs => if p = c then stripPfx ps cs else none

/-- Bool test for substring containment over character lists. -/
def listContainsSub (needle : List Char) : List Char → Bool
  | [] => needle.isEmpty
  | c :: cs => needle.isPrefixOf (c :: cs) || listContainsSub needle cs

/-- Bool test for substring containment over strings. -/
def containsSubstr (needle hay : String) : Bool :=
  listContainsSub needle.data hay.data

theorem splitOnceChar_not_mem {sep : Char} : ∀ {l : List Char},
    sep ∉ l → splitOnceChar sep l = none := by
  intro l
  induction l with
  | nil => intro h; rfl
  | cons c cs ih =>
    intro h
    have hc : c ≠ sep := fun he => h (he ▸ List.mem_cons_self c cs)
    have hcs : sep ∉ cs := fun hm => h (List.mem_cons_of_mem c hm)
    simp only [splitOnceChar, if_neg hc, ih hcs]

theorem splitOnceChar_append {sep : Char} : ∀ (s n : List Char),
    sep ∉ s → splitOnceChar sep (s ++ sep :: n) = some (s, n) := by
  intro s
  induction s with
  | nil => intro n _; simp [splitOnceChar]
  | cons c cs ih =>
    intro n h
    have hc : c ≠ sep := fun he => h (he ▸ List.mem_cons_self c cs)
    have hcs : sep ∉ cs := fun hm => h (List.mem_cons_of_mem c hm)
    simp only [List.cons_append, splitOnceChar, if_neg hc, List.append_eq]
    rw [ih n hcs]

theorem stripPfx_append : ∀ (p l : List Char), stripPfx p (p ++ l) = some l := by
  intro p
  induction p with
  | nil => intro l; rfl
  | cons c cs ih => intro l; simp [stripPfx, ih]

theorem isPrefixOf_append_right {n a : List Char} (b : List Char)
    (h : n.isPrefixOf a = true) : n.isPrefixOf (a ++ b) = true := by
  induction n generalizing a with
  | nil => simp [List.isPrefixOf]
  | cons x xs ih =>
    cases a with
    | nil => simp [List.isPrefixOf] at h
    | cons y ys =>
      simp only [List.isPrefixOf, List.cons_append, Bool.and_eq_true] at h ⊢
      exact ⟨h.1, ih h.2⟩

theorem listContainsSub_nil_needle : ∀ (l : List Char),
    listContainsSub [] l = true := by
  intro l
  cases l with
  | nil => rfl
  | cons c cs => simp [listContainsSub, List.isPrefixOf]

theorem listContainsSub_append_right {n a : List Char} (b : List Char)
    (h : listContainsSub n a = true) : listContainsSub n (a ++ b) = true := by
  induction a with
  | nil =>
    simp only [listContainsSub, List.isEmpty_iff] at h
    subst h
    exact listContainsSub_nil_needle b
  | cons c cs ih =>
    simp only [listContainsSub, Bool.or_eq_true, List.cons_append] at h ⊢
    cases h with
    | inl hp => exact Or.inl (isPrefixOf_append_right b hp)
    | inr hs => exact Or.inr (ih hs)

/-! ## Access model: config records (config/models.py)

`AccessRule.tools`/`resources` are `Optional[List[str]]`; `None` means all
items.  `ClientRule.identify_by` is a list of string-to-string mappings,
modelled as association lists. -/

structure AccessRule where
  server : String
  tools : Option (List String) := none
  resources : Option (List String) := none
deriving DecidableEq, Repr

structure ClientRule where
  identify_by : List (List (String × String)) := []
  allow : List AccessRule := []
  deny : List AccessRule := []
  deny_all_except_allowed : Bool := false
deriving DecidableEq, Repr

/-! ## Permission engine (access/permission_engine.py) -/

/-- `PermissionEngine._wildcard_match`. -/
def wildcard_match (item_name : String) (patterns : List String) : Bool :=
  patterns.any (fun p => fnmatch item_name p)

/-- `PermissionEngine._matches_access_rule`: the rule matches when its server
id equals the requested one and the item list for the item type (tools or
resources) is missing/empty (which means all items), contains the item,
contains the literal `*`, or matches it as an fnmatch wildcard. -/
def matches_access_rule (rule : AccessRule) (server_id item_name item_type : String) :
    Bool :=
  if rule.server != server_id then false
  else
    match
      (if item_type == "tools" then some rule.tools
       else if item_type == "resources" then some rule.resources
       else none) with
    | none => false
    | some none => true
    | some (some items) =>
      if items.isEmpty then true
      else items.contains item_name || items.contains "*" ||
        wildcard_match item_name items

/-- Rule resolution shared by the checks: the rule looked up under the client
id, falling back to the rule under the literal id `default`. -/
def resolveRule (clients : List (String × ClientRule)) (client_id : String) :
    Option ClientRule :=
  match clients.lookup client_id with
  | some r => some r
  | none => clients.lookup "default"

/-- `PermissionEngine.check_tool_access`: no resolvable rule denies; then
explicit denies beat explicit allows beat the `deny_all_except_allowed`
default policy. -/
def check_tool_access (clients : List (String × ClientRule))
    (client_id server_id tool_name : String) : Bool :=
  match resolveRule clients client_id with
  | none => false
  | some rule =>
    if rule.deny.any (fun d => matches_access_rule d server_id tool_name "tools") then
      false
    else if rule.allow.any (fun a => matches_access_rule a server_id tool_name "tools") then
      true
    else
      !rule.deny_all_except_allowed

/-! ## Namespacing (routing/router.py, routing/aggregator.py,
access/middleware.py) -/

/-- The namespaced tool (and prompt) name built by
`ResponseAggregator.aggregate_tools`: `f"{server_id}.{tool.name}"`. -/
def namespace_tool (server_id name : String) : String :=
  server_id ++ "." ++ name

/-- The namespaced resource URI built by
`ResponseAggregator.aggregate_resources`: `f"mcp://{server_id}/{resource.uri}"`. -/
def namespace_resource (server_id uri : String) : String :=
  "mcp://" ++ server_id ++ "/" ++ uri

/-- `MCPRouter._parse_namespaced_tool`: split at the first `.`; a name
without `.` raises `ValueError` (modelled as `none`). -/
def parse_namespaced_tool (tool_name : String) : Option (String × String) :=
  match splitOnceChar '.' tool_name.data with
  | some (a, b) => some (String.mk a, String.mk b)
  | none => none

/-- `MCPRouter._parse_namespaced_resource`: strip `mcp://`, then split at the
first `/`; no `/` leaves an empty URI; a URI without the `mcp://` scheme
raises `ValueError` (modelled as `none`). -/
def parse_namespaced_resource (resource_uri : String) : Option (String × String) :=
  match stripPfx "mcp://".data resource_uri.data with
  | none => none
  | some rest =>
    match splitOnceChar '/' rest with
    | some (a, b) => some (String.mk a, String.mk b)
    | none => some (String.mk rest, "")

/-- `AccessControlMiddleware._parse_namespaced_tool`: same split, but a name
without `.` falls back to the server id `default` with the name unchanged. -/
def mw_parse_namespaced_tool (tool_name : String) : String × String :=
  match splitOnceChar '.' tool_name.data with
  | some (a, b) => (String.mk a, String.mk b)
  | none => ("default", tool_name)

/-! ## Router model (routing/router.py)

MCP error codes from `mcp.types` (JSON-RPC). -/

def INVALID_REQUEST : Int := -32600

def METHOD_NOT_FOUND : Int := -32601

def INTERNAL_ERROR : Int := -32603

structure ErrorData where
  code : Int
  message : String
deriving DecidableEq, Repr

/-- Outcome of `await asyncio.wait_for(self.server_manager.call_tool(...))`:
a result, an `asyncio.TimeoutError`, a `ValueError` (server not configured or
not running), or any other exception. -/
inductive BackendOutcome (R : Type) where
  | ok (r : R)
  | timeoutErr
  | valueErr (msg : String)
  | otherErr (msg : String)
deriving DecidableEq, Repr

/-- Result of routing: a successful payload or an MCP `ErrorData`. -/
inductive RouteResult (R : Type) where
  | ok (r : R)
  | err (e : ErrorData)
deriving DecidableEq, Repr

/-- `MCPServerManager.call_tool` raises `ValueError(f"Server {server_id} not
running")` when the id has no process entry; otherwise it forwards to the
process, whose awaited outcome we take as a parameter. -/
def manager_call_outcome {R : Type} (running : List String) (server_id : String)
    (proc : BackendOutcome R) : BackendOutcome R :=
  if running.contains server_id then proc
  else BackendOutcome.valueErr ("Server " ++ server_id ++ " not running")

/-- `MCPRouter._route_tool_call`.  The cache probe result is passed in as
`cached` (`ResponseCache.get` under the generated key); `callResult` is the
awaited backend call for the parsed server id and bare tool name.  The
`Except.error` branch is the `ValueError` raised by the parser BEFORE the
try/except block, which therefore escapes this function. -/
def route_tool_call {R : Type} (tool_name : String) (cached : Option R)
    (callResult : String → String → BackendOutcome R) :
    Except String (RouteResult R) :=
  match parse_namespaced_tool tool_name with
  | none => Except.error ("Tool name must be namespaced: " ++ tool_name)
  | some (server_id, actual_tool_name) =>
    match cached with
    | some r => Except.ok (RouteResult.ok r)
    | none =>
      match callResult server_id actual_tool_name with
      | BackendOutcome.ok r => Except.ok (RouteResult.ok r)
      | BackendOutcome.timeoutErr =>
        Except.ok (RouteResult.err
          ⟨INTERNAL_ERROR, "Tool call timeout: " ++ tool_name⟩)
      | BackendOutcome.valueErr m =>
        Except.ok (RouteResult.err ⟨INVALID_REQUEST, m⟩)
      | BackendOutcome.otherErr m =>
        Except.ok (RouteResult.err ⟨INTERNAL_ERROR, "Backend error: " ++ m⟩)

/-- `MCPRouter.route_request` for a `CallToolRequest`: any exception escaping
the dispatch (in particular the parser `ValueError`) is caught and converted
to an internal-error `ErrorData`. -/
def route_request_call_tool {R : Type} (tool_name : String) (cached : Option R)
    (callResult : String → String → BackendOutcome R) : RouteResult R :=
  match route_tool_call tool_name cached callResult with
  | Except.ok r => r
  | Except.error msg =>
    RouteResult.err ⟨INTERNAL_ERROR, "Internal routing error: " ++ msg⟩

/-! ## Aggregator model (routing/aggregator.py) -/

/-- `mcp.types.Tool` as used by the aggregator; the input schema is an opaque
payload of type `S`. -/
structure Tool (S : Type) where
  name : String
  description : Option String
  inputSchema : S
deriving DecidableEq, Repr

/-- Python renders `None` as the string `"None"` inside an f-string. -/
def pyStr (o : Option String) : String :=
  match o with
  | some s => s
  | none => "None"

/-- Outcome of one backend `process.list_tools()` awaited with a 10 s
deadline: a `ListToolsResult`, a synchronous error, or a timeout. -/
inductive ListOutcome (S : Type) where
  | ok (tools : List (Tool S))
  | errOut (msg : String)
  | timeoutOut
deriving DecidableEq, Repr

/-- `ResponseAggregator._get_server_tools`: wraps timeout and failure into
exceptions (carried to `gather` with `return_exceptions=True`). -/
def get_server_tools {S : Type} (server_id : String) (o : ListOutcome S) :
    Except String (List (Tool S)) :=
  match o with
  | ListOutcome.ok ts => Except.ok ts
  | ListOutcome.timeoutOut =>
    Except.error ("Timeout getting tools from " ++ server_id)
  | ListOutcome.errOut m =>
    Except.error ("Error getting tools from " ++ server_id ++ ": " ++ m)

/-- The namespaced copy of one tool built in `aggregate_tools`. -/
def namespacedToolOf {S : Type} (server_id : String) (t : Tool S) : Tool S :=
  { name := namespace_tool server_id t.name
    description := some ("[" ++ server_id ++ "] " ++ pyStr t.description)
    inputSchema := t.inputSchema }

/-- `ResponseAggregator.aggregate_tools`: iterate the active sessions in
order, skip every backend whose task ended in an exception, and append the
namespaced tools of each successful backend. -/
def aggregate_tools {S : Type} (sessions : List (String × ListOutcome S)) :
    List (Tool S) :=
  sessions.foldl
    (fun all_tools p =>
      match get_server_tools p.1 p.2 with
      | Except.error _ => all_tools
      | Except.ok ts => all_tools ++ ts.map (namespacedToolOf p.1))
    []

/-! ## Access middleware and front-end handler (access/middleware.py,
core/manager.py) -/

/-- `AccessControlMiddleware._check_tool_call`: parse with the default
fallback, then consult the permission engine; denial produces an
invalid-request `ErrorData` whose message is `"Access denied to tool: "` plus
the full namespaced name. -/
def check_tool_call (clients : List (String × ClientRule))
    (client_id tool_name : String) : Bool × Option ErrorData :=
  let parsed := mw_parse_namespaced_tool tool_name
  if check_tool_access clients client_id parsed.1 parsed.2 then (true, none)
  else
    (false, some ⟨INVALID_REQUEST, "Access denied to tool: " ++ tool_name⟩)

/-- A text content block (`mcp.types.TextContent`). -/
structure TextContent where
  text : String
deriving DecidableEq, Repr

/-- Attribute access `error_response.message` where `error_response` may be
`None`; the denial branch of the handler always has an error object, so the
`none` case is unreachable there. -/
def pyMessage (o : Option ErrorData) : String :=
  match o with
  | some e => e.message
  | none => "None"

/-- The `call_tool` handler installed by `MCPManager._setup_mcp_handlers`:
run access control; on denial return a single text content block
`f"Access denied: {error_response.message}"`; otherwise adapt the router
result (`routed` stands for `route_request`). -/
def call_tool_handler (clients : List (String × ClientRule))
    (client_id name : String) (routed : RouteResult (List TextContent)) :
    List TextContent :=
  let checked := check_tool_call clients client_id name
  if checked.1 = false then
    [⟨"Access denied: " ++ pyMessage checked.2⟩]
  else
    match routed with
    | RouteResult.ok content => content
    | RouteResult.err e => [⟨"Error: " ++ e.message⟩]

/-! ## Client identifier (access/client_identifier.py) -/

/-- `ConnectionContext`, with the effective client-info fields flattened:
the nested `hasattr` probes in `_extract_context_value` reduce to "the name /
version if the handshake provided one, else missing". -/
structure ConnectionContext where
  client_info_name : Option String := none
  client_info_version : Option String := none
  transport_type : String := ""
  headers : List (String × String) := []
  remote_address : String := ""
  client_id : Option String := none
deriving DecidableEq, Repr

/-- `ClientIdentifier._extract_context_value`: every missing value resolves
to the empty string, unknown keys fall back to the empty string. -/
def extract_context_value (ctx : ConnectionContext) (key : String) : String :=
  if key == "client_info.name" then
    match ctx.client_info_name with
    | some s => s
    | none => ""
  else if key == "client_info.version" then
    match ctx.client_info_version with
    | some s => s
    | none => ""
  else if key == "connection_source" || key == "transport_type" then
    ctx.transport_type
  else if key == "user_agent" then
    match ctx.headers.lookup "User-Agent" with
    | some v => v
    | none => ""
  else if key == "remote_address" then
    ctx.remote_address
  else
    match stripPfx "header.".data key.data with
    | some rest =>
      match ctx.headers.lookup (String.mk rest) with
      | some v => v
      | none => ""
    | none => ""

/-- Python `expected.endswith("*")`. -/
def endsWithStar (s : String) : Bool :=
  match s.data.getLast? with
  | some c => c == '*'
  | none => false

/-- `ClientIdentifier._matches_value`: wildcard matching when the expected
value ends in `*`, exact equality otherwise. -/
def matches_value (actual expected : String) : Bool :=
  if endsWithStar expected then fnmatch actual expected
  else actual == expected

/-- `ClientIdentifier._matches_rule`: every (key, expected) pair of every
condition mapping must match. -/
def matches_rule (ctx : ConnectionContext)
    (conditions : List (List (String × String))) : Bool :=
  conditions.all
    (fun condition =>
      condition.all
        (fun kv => matches_value (extract_context_value ctx kv.1) kv.2))

/-- `ClientIdentifier.identify_client`: first rule in declared order whose
conditions all match wins; otherwise the literal id `default`.  The resolved
id is stored back on the context. -/
def identify_client (clients : List (String × ClientRule))
    (ctx : ConnectionContext) : String × ConnectionContext :=
  match clients with
  | [] => ("default", { ctx with client_id := some "default" })
  | (client_id, rule) :: rest =>
    if matches_rule ctx rule.identify_by then
      (client_id, { ctx with client_id := some client_id })
    else
      identify_client rest ctx

/-! ## Process supervisor (server/manager.py) -/

/-- The slice of `ServerConfig` that `start_server` consults. -/
structure ServerCfg where
  enabled : Bool := true
deriving DecidableEq, Repr

/-- `MCPServerManager.start_server` for server id `sid`.  `install` stands
for `await self._ensure_server_installed(...)` and `pstart` for
`await process.start()` (both may raise; `P` is the started process value
that ends up in the session map).  The returned pair is (raised exception if
any, session map after the call); the map is assigned only on the success
path, after `process.start()` returned. -/
def start_server {P : Type} (cfgServers : List (String × ServerCfg))
    (install : String → Except String Unit) (pstart : String → Except String P)
    (processes : List (String × P)) (sid : String) :
    Option String × List (String × P) :=
  if (processes.lookup sid).isSome then (none, processes)
  else
    match cfgServers.lookup sid with
    | none => (some ("Server " ++ sid ++ " not configured"), processes)
    | some cfg =>
      if cfg.enabled = false then (none, processes)
      else
        match install sid with
        | Except.error e => (some e, processes)
        | Except.ok _ =>
          match pstart sid with
          | Except.error e => (some e, processes)
          | Except.ok proc => (none, processes ++ [(sid, proc)])

/-! ## Response cache (routing/cache.py)

`datetime.now()` is modelled as a `Nat` instant passed to each operation.
The Python dict `self.cache` is an insertion-ordered association list with
unique keys (dict assignment of an existing key replaces in place, of a new
key appends). -/

structure CacheEntry (D : Type) where
  data : D
  created_at : Nat
  expires_at : Nat
deriving DecidableEq, Repr

/-- `CacheEntry.__init__`: `created_at = now`, `expires_at = now + ttl`. -/
def mkCacheEntry {D : Type} (data : D) (ttl_seconds now : Nat) : CacheEntry D :=
  ⟨data, now, now + ttl_seconds⟩

/-- `CacheEntry.is_expired`: `datetime.now() > self.expires_at`. -/
def is_expired {D : Type} (e : CacheEntry D) (now : Nat) : Bool :=
  now > e.expires_at

/-- Python `self.cache.get(key)`. -/
def lookupEntry {K D : Type} [DecidableEq K] (k : K) :
    List (K × CacheEntry D) → Option (CacheEntry D)
  | [] => none
  | (k', e) :: rest => if k' = k then some e else lookupEntry k rest

/-- Python `del self.cache[key]` / `self.cache.pop(key, None)`: drop the
entry under `k` (keys are unique, so dropping the first is enough). -/
def eraseKey {K D : Type} [DecidableEq K] (k : K) :
    List (K × CacheEntry D) → List (K × CacheEntry D)
  | [] => []
  | (k', e) :: rest => if k' = k then rest else (k', e) :: eraseKey k rest

/-- Python dict assignment `self.cache[key] = entry`: replace in place when
the key exists, append otherwise. -/
def setEntry {K D : Type} [DecidableEq K] (k : K) (e : CacheEntry D) :
    List (K × CacheEntry D) → List (K × CacheEntry D)
  | [] => [(k, e)]
  | (k', e') :: rest =>
    if k' = k then (k, e) :: rest else (k', e') :: setEntry k e rest

/-- `ResponseCache.get`: a miss for an absent key; an expired entry is
deleted and misses; otherwise the stored payload is returned.  The pair is
(returned value, cache afterwards); the function is total, so `get` never
raises. -/
def cacheGet {K D : Type} [DecidableEq K] (k : K) (now : Nat)
    (cache : List (K × CacheEntry D)) : Option D × List (K × CacheEntry D) :=
  match lookupEntry k cache with
  | none => (none, cache)
  | some entry =>
    if is_expired entry now then (none, eraseKey k cache)
    else (some entry.data, cache)

/-- `ResponseCache._cleanup_expired_unlocked`: drop every expired entry. -/
def cleanup_expired {K D : Type} (now : Nat)
    (cache : List (K × CacheEntry D)) : List (K × CacheEntry D) :=
  cache.filter (fun p => !is_expired p.2 now)

/-- The sort key of `ResponseCache._evict_oldest`:
`sorted(self.cache.items(), key=lambda x: x[1].created_at)`. -/
def byCreatedAt {K D : Type} (a b : K × CacheEntry D) : Prop :=
  a.2.created_at ≤ b.2.created_at

instance {K D : Type} : DecidableRel (@byCreatedAt K D) :=
  fun a b => Nat.decLe a.2.created_at b.2.created_at

instance {K D : Type} : IsTotal (K × CacheEntry D) byCreatedAt :=
  ⟨fun a b => Nat.le_total a.2.created_at b.2.created_at⟩

instance {K D : Type} : IsTrans (K × CacheEntry D) byCreatedAt :=
  ⟨fun _ _ _ hab hbc => Nat.le_trans hab hbc⟩

/-- Python `sorted` is a stable sort; insertion sort is stable and agrees
with it on this key. -/
def sortByCreatedAt {K D : Type} (cache : List (K × CacheEntry D)) :
    List (K × CacheEntry D) :=
  List.insertionSort byCreatedAt cache

/-- `ResponseCache._evict_oldest`: sort by creation time, delete the keys of
the first `max(1, len // 10)` entries. -/
def evict_oldest {K D : Type} [DecidableEq K]
    (cache : List (K × CacheEntry D)) : List (K × CacheEntry D) :=
  let sorted_entries := sortByCreatedAt cache
  let evict_count := max 1 (sorted_entries.length / 10)
  let victims := (sorted_entries.take evict_count).map Prod.fst
  cache.filter (fun p => !decide (p.1 ∈ victims))

/-- `ResponseCache.set`: default the TTL, run the periodic expired-entry
cleanup when the entry count is a multiple of 100, evict the oldest entries
when still at or above `max_size`, then store the new entry. -/
def cacheSet {K D : Type} [DecidableEq K] (max_size default_ttl : Nat) (k : K)
    (data : D) (ttl? : Option Nat) (now : Nat)
    (cache : List (K × CacheEntry D)) : List (K × CacheEntry D) :=
  let ttl := ttl?.getD default_ttl
  let cache1 := if cache.length % 100 = 0 then cleanup_expired now cache else cache
  let cache2 := if cache1.length ≥ max_size then evict_oldest cache1 else cache1
  setEntry k (mkCacheEntry data ttl now) cache2

/-- One cache operation, with its observation instant where the code reads
the clock. -/
inductive CacheOp (K D : Type) where
  | get (k : K) (now : Nat)
  | set (k : K) (data : D) (ttl? : Option Nat) (now : Nat)
  | del (k : K)
  | clear
deriving DecidableEq, Repr

/-- Apply one operation to the cache state. -/
def applyOp {K D : Type} [DecidableEq K] (max_size default_ttl : Nat)
    (cache : List (K × CacheEntry D)) : CacheOp K D → List (K × CacheEntry D)
  | CacheOp.get k now => (cacheGet k now cache).2
  | CacheOp.set k d ttl? now => cacheSet max_size default_ttl k d ttl? now cache
  | CacheOp.del k => eraseKey k cache
  | CacheOp.clear => []

/-- Run a sequence of operations from the empty cache `ResponseCache()`
starts with. -/
def runOps {K D : Type} [DecidableEq K] (max_size default_ttl : Nat)
    (ops : List (CacheOp K D)) : List (K × CacheEntry D) :=
  ops.foldl (applyOp max_size default_ttl) []

/-! ## Round-trip helper lemmas for namespacing -/

theorem tool_roundtrip (s n : String) (h : '.' ∉ s.data) :
    parse_namespaced_tool (namespace_tool s n) = some (s, n) := by
  have h1 : (namespace_tool s n).data = s.data ++ '.' :: n.data := by
    simp [namespace_tool, String.data_append]
  unfold parse_namespaced_tool
  rw [h1, splitOnceChar_append _ _ h]

theorem resource_roundtrip (s u : String) (h : '/' ∉ s.data) :
    parse_namespaced_resource (namespace_resource s u) = some (s, u) := by
  have h1 : (namespace_resource s u).data = "mcp://".data ++ (s.data ++ '/' :: u.data) := by
    simp [namespace_resource, String.data_append]
  have h2 := splitOnceChar_append s.data u.data h
  unfold parse_namespaced_resource
  rw [h1, stripPfx_append "mcp://".data (s.data ++ '/' :: u.data)]
  simp [h2]

/-! ## Claim theorems -/

/-- C1: for every client id, server id and tool name, and every ClientRule
resolved for the client (directly or via the `default` fallback), if any rule
in its deny list matches the (server, tool) pair under
`_matches_access_rule`, then `check_tool_access` returns false, whatever the
allow list contains. -/
theorem c1_deny_precedence (clients : List (String × ClientRule)) (c s t : String)
    (rule : ClientRule) (hres : resolveRule clients c = some rule)
    (d : AccessRule) (hd : d ∈ rule.deny)
    (hm : matches_access_rule d s t "tools" = true) :
    check_tool_access clients c s t = false := by
  unfold check_tool_access
  rw [hres]
  have hany : rule.deny.any (fun d => matches_access_rule d s t "tools") = true :=
    List.any_eq_true.mpr ⟨d, hd, hm⟩
  simp [hany]

def c1Clients : List (String × ClientRule) :=
  [("guest",
    { identify_by := []
      allow := [{ server := "fs", tools := some ["read_file"] }]
      deny := [{ server := "fs", tools := some ["*"] }]
      deny_all_except_allowed := false })]

theorem c1_deny_precedence_witness :
    check_tool_access c1Clients "guest" "fs" "read_file" = false :=
  c1_deny_precedence c1Clients "guest" "fs" "read_file"
    { identify_by := []
      allow := [{ server := "fs", tools := some ["read_file"] }]
      deny := [{ server := "fs", tools := some ["*"] }]
      deny_all_except_allowed := false }
    (by decide)
    { server := "fs", tools := some ["*"] }
    (by decide)
    (by decide)

/-- C3: `get` on a key bound to an entry returns the stored payload when the
instant is before the expiry, deletes the entry and misses when the entry is
expired, misses without touching the cache when the key is absent; the
function is total, so it never raises. -/
theorem c3_cache_get_spec {K D : Type} [DecidableEq K]
    (cache : List (K × CacheEntry D)) (k : K) (now : Nat) :
    (lookupEntry k cache = none → cacheGet k now cache = (none, cache)) ∧
    (∀ e, lookupEntry k cache = some e → now < e.expires_at →
      cacheGet k now cache = (some e.data, cache)) ∧
    (∀ e, lookupEntry k cache = some e → is_expired e now = true →
      cacheGet k now cache = (none, eraseKey k cache)) := by
  refine ⟨?_, ?_, ?_⟩
  · intro h
    simp [cacheGet, h]
  · intro e he hlt
    have hexp : is_expired e now = false := by
      simp only [is_expired, gt_iff_lt, decide_eq_false_iff_not, not_lt]
      omega
    simp [cacheGet, he, hexp]
  · intro e he hexp
    simp [cacheGet, he, hexp]

theorem c3_cache_get_spec_witness :
    cacheGet (0 : Nat) 3 [((0 : Nat), (⟨7, 0, 5⟩ : CacheEntry Nat))] =
      (some 7, [(0, ⟨7, 0, 5⟩)]) :=
  (c3_cache_get_spec [((0 : Nat), (⟨7, 0, 5⟩ : CacheEntry Nat))] 0 3).2.1
    ⟨7, 0, 5⟩ (by decide) (by decide)

/-- C4 counterexample: with a server id containing the separator, the
namespacing maps are not injective and parsing does not invert them, so the
claim as stated (quantifying over every server id) is false. -/
theorem c4_counterexample :
    namespace_tool "a.b" "c" = namespace_tool "a" "b.c" ∧
    parse_namespaced_tool (namespace_tool "a.b" "c") ≠ some ("a.b", "c") ∧
    namespace_resource "a/b" "c" = namespace_resource "a" "b/c" ∧
    parse_namespaced_resource (namespace_resource "a/b" "c") ≠ some ("a/b", "c") := by
  refine ⟨by decide, by decide, by decide, by decide⟩

/-- C4 amended: for server ids that do not contain the separator (`.` for
tools and prompts, `/` for resources) the namespacing maps are total (they
are functions), injective, and inverted exactly by the parsers. -/
theorem c4_namespace_roundtrip (s n u : String)
    (hdot : '.' ∉ s.data) (hslash : '/' ∉ s.data) :
    parse_namespaced_tool (namespace_tool s n) = some (s, n) ∧
    parse_namespaced_resource (namespace_resource s u) = some (s, u) ∧
    (∀ s' n', '.' ∉ s'.data → namespace_tool s n = namespace_tool s' n' →
      s = s' ∧ n = n') ∧
    (∀ s' u', '/' ∉ s'.data → namespace_resource s u = namespace_resource s' u' →
      s = s' ∧ u = u') := by
  refine ⟨tool_roundtrip s n hdot, resource_roundtrip s u hslash, ?_, ?_⟩
  · intro s' n' h' heq
    have p1 := tool_roundtrip s n hdot
    have p2 := tool_roundtrip s' n' h'
    rw [heq, p2] at p1
    cases p1
    exact ⟨rfl, rfl⟩
  · intro s' u' h' heq
    have p1 := resource_roundtrip s u hslash
    have p2 := resource_roundtrip s' u' h'
    rw [heq, p2] at p1
    cases p1
    exact ⟨rfl, rfl⟩

theorem c4_namespace_roundtrip_witness :
    parse_namespaced_tool (namespace_tool "fs" "read_file") = some ("fs", "read_file") ∧
    parse_namespaced_resource (namespace_resource "fs" "a/b.txt") = some ("fs", "a/b.txt") :=
  ⟨(c4_namespace_roundtrip "fs" "read_file" "a/b.txt" (by decide) (by decide)).1,
   (c4_namespace_roundtrip "fs" "read_file" "a/b.txt" (by decide) (by decide)).2.1⟩

/-- C10: a tool name without a `.` is not rejected by the middleware parser:
it is parsed as (server id `default`, unchanged name) and authorization is
evaluated against the server id `default`, while the router parser raises
for the same name, which `route_request` converts to an internal error — so
a non-namespaced call can pass authorization yet never reach a backend. -/
theorem c10_non_namespaced_divergence (R : Type)
    (clients : List (String × ClientRule)) (client_id t : String)
    (h : '.' ∉ t.data) :
    mw_parse_namespaced_tool t = ("default", t) ∧
    parse_namespaced_tool t = none ∧
    check_tool_call clients client_id t =
      (if check_tool_access clients client_id "default" t then (true, none)
       else (false, some ⟨INVALID_REQUEST, "Access denied to tool: " ++ t⟩)) ∧
    (∀ (cached : Option R) (callResult : String → String → BackendOutcome R),
      route_request_call_tool t cached callResult =
        RouteResult.err ⟨INTERNAL_ERROR,
          "Internal routing error: " ++ ("Tool name must be namespaced: " ++ t)⟩) := by
  have hsplit : splitOnceChar '.' t.data = none := splitOnceChar_not_mem h
  refine ⟨?_, ?_, ?_, ?_⟩
  · simp [mw_parse_namespaced_tool, hsplit]
  · simp [parse_namespaced_tool, hsplit]
  · simp only [check_tool_call, mw_parse_namespaced_tool, hsplit]
  · intro cached callResult
    simp [route_request_call_tool, route_tool_call, parse_namespaced_tool, hsplit]

def c10Clients : List (String × ClientRule) :=
  [("default", { identify_by := [] })]

theorem c10_non_namespaced_divergence_witness :
    check_tool_call c10Clients "someclient" "plaintool" = (true, none) ∧
    route_request_call_tool "plaintool" (none : Option Nat)
        (fun _ _ => BackendOutcome.ok 0) =
      RouteResult.err ⟨INTERNAL_ERROR,
        "Internal routing error: Tool name must be namespaced: plaintool"⟩ := by
  have h := c10_non_namespaced_divergence Nat c10Clients "someclient" "plaintool"
    (by decide)
  refine ⟨?_, ?_⟩
  · rw [h.2.2.1]
    decide
  · have h4 := h.2.2.2 none (fun _ _ => BackendOutcome.ok 0)
    rw [h4]
    decide

/-- C8: `identify_client` returns the id of the first rule in declared order
whose `identify_by` conditions all match the context (matching as in
`_matches_value`: wildcard for expected values ending in `*`, exact equality
otherwise, with missing context values extracted as the empty string), and
the literal id `default` when no rule matches; the resolved id is stored on
the context. -/
theorem c8_identify_first_match (clients : List (String × ClientRule))
    (ctx : ConnectionContext) :
    (identify_client clients ctx).2.client_id =
      some (identify_client clients ctx).1 ∧
    ((∃ pre rule post,
        clients = pre ++ ((identify_client clients ctx).1, rule) :: post ∧
        matches_rule ctx rule.identify_by = true ∧
        ∀ q ∈ pre, matches_rule ctx q.2.identify_by = false) ∨
      ((identify_client clients ctx).1 = "default" ∧
        ∀ q ∈ clients, matches_rule ctx q.2.identify_by = false)) := by
  induction clients with
  | nil => exact ⟨rfl, Or.inr ⟨rfl, by simp⟩⟩
  | cons p rest ih =>
    obtain ⟨cid, rule⟩ := p
    by_cases hm : matches_rule ctx rule.identify_by = true
    · refine ⟨by simp [identify_client, hm], Or.inl ?_⟩
      refine ⟨[], rule, rest, ?_, hm, by simp⟩
      simp [identify_client, hm]
    · have hmf : matches_rule ctx rule.identify_by = false := by
        simpa using hm
      have hrec : identify_client ((cid, rule) :: rest) ctx =
          identify_client rest ctx := by
        simp [identify_client, hmf]
      rw [hrec]
      rcases ih with ⟨ih1, ih2⟩
      refine ⟨ih1, ?_⟩
      rcases ih2 with ⟨pre, rule', post, heq, hm', hall⟩ | ⟨hd, hall⟩
      · refine Or.inl ⟨(cid, rule) :: pre, rule', post,
          by rw [List.cons_append]; exact congrArg (List.cons (cid, rule)) heq,
          hm', ?_⟩
        intro q hq
        rcases List.mem_cons.mp hq with hq1 | hq2
        · rw [hq1]
          exact hmf
        · exact hall q hq2
      · refine Or.inr ⟨hd, ?_⟩
        intro q hq
        rcases List.mem_cons.mp hq with hq1 | hq2
        · rw [hq1]
          exact hmf
        · exact hall q hq2

/-- C9: `start_server` mutates the session map only on the success path,
after `process.start()` returned: whenever it raises, the map is unchanged,
and whenever the map changed, no exception was raised, install and process
start both succeeded, the id was not yet in the map, and exactly the new
session was appended. -/
theorem c9_start_server_state {P : Type}
    (cfgServers : List (String × ServerCfg))
    (install : String → Except String Unit) (pstart : String → Except String P)
    (processes : List (String × P)) (sid : String) :
    (∀ e, (start_server cfgServers install pstart processes sid).1 = some e →
      (start_server cfgServers install pstart processes sid).2 = processes) ∧
    ((start_server cfgServers install pstart processes sid).2 ≠ processes →
      (start_server cfgServers install pstart processes sid).1 = none ∧
      processes.lookup sid = none ∧
      install sid = Except.ok () ∧
      ∃ proc, pstart sid = Except.ok proc ∧
        (start_server cfgServers install pstart processes sid).2 =
          processes ++ [(sid, proc)]) := by
  unfold start_server
  by_cases hrun : (processes.lookup sid).isSome
  · simp [hrun]
  · cases hcfg : cfgServers.lookup sid with
    | none => simp [hrun, hcfg]
    | some cfg =>
      by_cases hen : cfg.enabled = false
      · simp [hrun, hcfg, hen]
      · cases hinst : install sid with
        | error e => simp [hrun, hcfg, hen, hinst]
        | ok u =>
          cases hst : pstart sid with
          | error e => simp [hrun, hcfg, hen, hinst, hst]
          | ok proc =>
            constructor
            · intro e he
              simp [hrun, hcfg, hen, hinst, hst] at he
            · intro _
              have hlk : processes.lookup sid = none :=
                Option.not_isSome_iff_eq_none.mp hrun
              exact ⟨by simp [hrun, hcfg, hen, hinst, hst], hlk, by cases u; rfl,
                proc, rfl, by simp [hrun, hcfg, hen, hinst, hst]⟩

def c9Cfg : List (String × ServerCfg) := [("fs", { enabled := true })]

theorem c9_start_server_state_witness :
    (start_server c9Cfg (fun _ => Except.ok ()) (fun _ => Except.ok 42) [] "fs").2 =
      [("fs", 42)] := by
  have h := c9_start_server_state c9Cfg (fun _ => Except.ok ())
    (fun _ => Except.ok (42 : Nat)) [] "fs"
  have hne : (start_server c9Cfg (fun _ => Except.ok ())
      (fun _ => Except.ok (42 : Nat)) [] "fs").2 ≠ [] := by decide
  obtain ⟨-, -, -, proc, hproc, heq⟩ := h.2 hne
  have hp : proc = 42 := by
    have := hproc
    simp at this
    exact this.symm
  rw [heq, hp]
  rfl

/-- C5 counterexample: a tool name without a namespace separator makes
`_parse_namespaced_tool` raise BEFORE the try/except of `_route_tool_call`,
so `route_request` converts it to an internal-error (code -32603), not the
invalid-request code (-32600) the claim states. -/
theorem c5_counterexample :
    route_request_call_tool "nodot" (none : Option Nat)
        (fun _ _ => BackendOutcome.ok 0) =
      RouteResult.err ⟨INTERNAL_ERROR,
        "Internal routing error: Tool name must be namespaced: nodot"⟩ ∧
    INTERNAL_ERROR ≠ INVALID_REQUEST := by
  exact ⟨by decide, by decide⟩

/-- C5 amended: a tool name without a namespace separator yields an
internal-error (`"Internal routing error: Tool name must be namespaced:
..."`); a backend call exceeding the 30 s deadline yields an internal-error
whose message contains the substring `"timeout"`; a target backend that is
not running yields an invalid-request error; any other backend failure
yields an internal-error. -/
theorem c5_route_errors (R : Type) (t : String)
    (call : String → String → BackendOutcome R) (running : List String)
    (proc : String → String → BackendOutcome R) :
    (parse_namespaced_tool t = none →
      route_request_call_tool t (none : Option R) call =
        RouteResult.err ⟨INTERNAL_ERROR,
          "Internal routing error: " ++ ("Tool name must be namespaced: " ++ t)⟩) ∧
    (∀ sid actual, parse_namespaced_tool t = some (sid, actual) →
      call sid actual = BackendOutcome.timeoutErr →
      route_request_call_tool t (none : Option R) call =
        RouteResult.err ⟨INTERNAL_ERROR, "Tool call timeout: " ++ t⟩ ∧
      containsSubstr "timeout" ("Tool call timeout: " ++ t) = true) ∧
    (∀ sid actual, parse_namespaced_tool t = some (sid, actual) →
      running.contains sid = false →
      route_request_call_tool t (none : Option R)
          (fun s a => manager_call_outcome running s (proc s a)) =
        RouteResult.err ⟨INVALID_REQUEST, "Server " ++ sid ++ " not running"⟩) ∧
    (∀ sid actual m, parse_namespaced_tool t = some (sid, actual) →
      call sid actual = BackendOutcome.otherErr m →
      route_request_call_tool t (none : Option R) call =
        RouteResult.err ⟨INTERNAL_ERROR, "Backend error: " ++ m⟩) := by
  refine ⟨?_, ?_, ?_, ?_⟩
  · intro hp
    simp [route_request_call_tool, route_tool_call, hp]
  · intro sid actual hp hc
    constructor
    · simp [route_request_call_tool, route_tool_call, hp, hc]
    · have hbase : listContainsSub "timeout".data "Tool call timeout: ".data = true := by
        decide
      have := listContainsSub_append_right t.data hbase
      simpa [containsSubstr, String.data_append] using this
  · intro sid actual hp hrun
    have hmem : sid ∉ running := by simpa using hrun
    simp [route_request_call_tool, route_tool_call, hp, manager_call_outcome, hmem]
  · intro sid actual m hp hc
    simp [route_request_call_tool, route_tool_call, hp, hc]

theorem c5_route_errors_witness :
    route_request_call_tool "fs.sleep" (none : Option Nat)
        (fun _ _ => BackendOutcome.timeoutErr) =
      RouteResult.err ⟨INTERNAL_ERROR, "Tool call timeout: " ++ "fs.sleep"⟩ ∧
    route_request_call_tool "db.query" (none : Option Nat)
        (fun s a => manager_call_outcome ["fs"] s (BackendOutcome.ok 0)) =
      RouteResult.err ⟨INVALID_REQUEST, "Server " ++ "db" ++ " not running"⟩ := by
  have h1 := (c5_route_errors Nat "fs.sleep" (fun _ _ => BackendOutcome.timeoutErr)
    [] (fun _ _ => BackendOutcome.ok 0)).2.1 "fs" "sleep" (by decide) rfl
  have h2 := (c5_route_errors Nat "db.query" (fun _ _ => BackendOutcome.ok 0)
    ["fs"] (fun _ _ => BackendOutcome.ok 0)).2.2.1 "db" "query" (by decide) (by decide)
  exact ⟨h1.1, h2⟩

/-- Bool classifiers for one backend list outcome. -/
def isOkOutcome {S : Type} : ListOutcome S → Bool
  | ListOutcome.ok _ => true
  | _ => false

def isErrOutcome {S : Type} : ListOutcome S → Bool
  | ListOutcome.errOut _ => true
  | _ => false

def isTimeoutOutcome {S : Type} : ListOutcome S → Bool
  | ListOutcome.timeoutOut => true
  | _ => false

theorem aggregate_tools_foldl {S : Type} :
    ∀ (sessions : List (String × ListOutcome S)) (acc : List (Tool S)),
      sessions.foldl
        (fun all_tools p =>
          match get_server_tools p.1 p.2 with
          | Except.error _ => all_tools
          | Except.ok ts => all_tools ++ ts.map (namespacedToolOf p.1))
        acc =
      acc ++ sessions.flatMap (fun p =>
        match p.2 with
        | ListOutcome.ok ts => ts.map (namespacedToolOf p.1)
        | _ => []) := by
  intro sessions
  induction sessions with
  | nil => intro acc; simp
  | cons p rest ih =>
    intro acc
    obtain ⟨sid, o⟩ := p
    cases o with
    | ok ts =>
      rw [List.foldl_cons, ih]
      simp [get_server_tools, List.append_assoc]
    | errOut m =>
      rw [List.foldl_cons, ih]
      simp [get_server_tools]
    | timeoutOut =>
      rw [List.foldl_cons, ih]
      simp [get_server_tools]

/-- C6: with N backend sessions of which k raise and m time out on their
list call, `aggregate_tools` returns exactly the namespaced tools of the
N−k−m remaining backends, in session order: a failing or timed-out backend
contributes nothing, and every tool of a succeeding backend appears renamed
to `server_id.tool_name` with its description prefixed by `[server_id] `. -/
theorem c6_aggregate_partial_failure (S : Type)
    (sessions : List (String × ListOutcome S)) :
    aggregate_tools sessions =
      sessions.flatMap (fun p =>
        match p.2 with
        | ListOutcome.ok ts => ts.map (namespacedToolOf p.1)
        | _ => []) ∧
    sessions.countP (fun p => isOkOutcome p.2) +
      sessions.countP (fun p => isErrOutcome p.2) +
      sessions.countP (fun p => isTimeoutOutcome p.2) = sessions.length := by
  constructor
  · exact aggregate_tools_foldl sessions []
  · induction sessions with
    | nil => rfl
    | cons p rest ih =>
      obtain ⟨sid, o⟩ := p
      rw [List.countP_cons, List.countP_cons, List.countP_cons, List.length_cons]
      cases o with
      | ok ts =>
        show List.countP (fun p => isOkOutcome p.2) rest + 1 +
            (List.countP (fun p => isErrOutcome p.2) rest + 0) +
            (List.countP (fun p => isTimeoutOutcome p.2) rest + 0) =
          rest.length + 1
        omega
      | errOut m =>
        show List.countP (fun p => isOkOutcome p.2) rest + 0 +
            (List.countP (fun p => isErrOutcome p.2) rest + 1) +
            (List.countP (fun p => isTimeoutOutcome p.2) rest + 0) =
          rest.length + 1
        omega
      | timeoutOut =>
        show List.countP (fun p => isOkOutcome p.2) rest + 0 +
            (List.countP (fun p => isErrOutcome p.2) rest + 0) +
            (List.countP (fun p => isTimeoutOutcome p.2) rest + 1) =
          rest.length + 1
        omega

def c7Clients : List (String × ClientRule) :=
  [("guest",
    { identify_by := []
      deny := [{ server := "fs", tools := some ["*"] }] })]

/-- C7 counterexample: the front-end handler wraps the middleware message
(itself already `"Access denied to tool: ..."`) in `"Access denied: ..."`,
so the text for `fs.read_file` under a `{server: fs, tools: ["*"]}` deny
rule is `"Access denied: Access denied to tool: fs.read_file"`, not the
`"Access denied: fs.read_file"` the claim states. -/
theorem c7_counterexample :
    call_tool_handler c7Clients "guest" "fs.read_file" (RouteResult.ok []) =
      [⟨"Access denied: Access denied to tool: fs.read_file"⟩] ∧
    call_tool_handler c7Clients "guest" "fs.read_file" (RouteResult.ok []) ≠
      [⟨"Access denied: fs.read_file"⟩] := by
  exact ⟨by decide, by decide⟩

/-- C7 amended: for a client whose resolved rule contains the deny rule
`{server: s, tools: ["*"]}` (server id without `.`), the front-end
`call_tool` handler invoked with the namespaced name `s.t` returns a single
text content block whose text is exactly
`"Access denied: Access denied to tool: s.t"`. -/
theorem c7_access_denied_text (clients : List (String × ClientRule))
    (c s t : String) (rs : Option (List String)) (rule : ClientRule)
    (routed : RouteResult (List TextContent))
    (hres : resolveRule clients c = some rule)
    (hd : ({ server := s, tools := some ["*"], resources := rs } : AccessRule) ∈
      rule.deny)
    (hdot : '.' ∉ s.data) :
    call_tool_handler clients c (namespace_tool s t) routed =
      [⟨"Access denied: " ++ ("Access denied to tool: " ++ namespace_tool s t)⟩] := by
  have hparse : mw_parse_namespaced_tool (namespace_tool s t) = (s, t) := by
    have h1 : (namespace_tool s t).data = s.data ++ '.' :: t.data := by
      simp [namespace_tool, String.data_append]
    unfold mw_parse_namespaced_tool
    rw [h1, splitOnceChar_append _ _ hdot]
  have hmatch : matches_access_rule ⟨s, some ["*"], rs⟩ s t "tools" = true := by
    unfold matches_access_rule
    simp
  have hdeny : check_tool_access clients c s t = false := by
    unfold check_tool_access
    rw [hres]
    have hany : rule.deny.any (fun d => matches_access_rule d s t "tools") = true :=
      List.any_eq_true.mpr ⟨_, hd, hmatch⟩
    simp [hany]
  simp [call_tool_handler, check_tool_call, hparse, hdeny, pyMessage]

theorem c7_access_denied_text_witness :
    call_tool_handler c7Clients "guest" (namespace_tool "fs" "read_file")
        (RouteResult.ok []) =
      [⟨"Access denied: " ++
        ("Access denied to tool: " ++ namespace_tool "fs" "read_file")⟩] :=
  c7_access_denied_text c7Clients "guest" "fs" "read_file" none
    { identify_by := []
      deny := [{ server := "fs", tools := some ["*"] }] }
    (RouteResult.ok []) (by decide) (by decide) (by decide)

/-- A 100-entry cache state: key 0 is the unique oldest entry (created 0,
unexpired at instant 10), key 1 is expired at instant 10, keys 2..99 are
newer and unexpired. -/
def c2BigState : List (Nat × CacheEntry Nat) :=
  (0, ⟨0, 0, 1000⟩) :: (1, ⟨0, 5, 6⟩) ::
    (List.range 98).map (fun i => (i + 2, ⟨0, i + 2, 1000⟩))

/-- C2 counterexample: `set` invoked at entry count 100 = max_size does NOT
evict any oldest-by-created-at entry: because the count is a multiple of
100, expired entries are cleaned up first (here the non-oldest key 1), the
count drops below max_size, and the unique oldest entry (key 0) survives —
contradicting the claim that at count ≥ max_size at least one
oldest-by-created-at entry is evicted before storing.  Moreover with
max_size = 0 a single `set` exceeds max_size. -/
theorem c2_counterexample :
    c2BigState.length = 100 ∧
    (∀ p ∈ c2BigState, p.1 ≠ 0 → 0 < p.2.created_at) ∧
    lookupEntry 0 (cacheSet 100 300 200 0 none 10 c2BigState) =
      some ⟨0, 0, 1000⟩ ∧
    (runOps 0 300 [CacheOp.set (0 : Nat) (0 : Nat) none 0]).length = 1 := by
  refine ⟨by decide, by decide, by decide, by decide⟩

/-! ## Lemmas about the cache operations -/

theorem eraseKey_sublist {K D : Type} [DecidableEq K] (k : K) :
    ∀ l : List (K × CacheEntry D), List.Sublist (eraseKey k l) l := by
  intro l
  induction l with
  | nil => exact List.Sublist.refl _
  | cons p rest ih =>
    obtain ⟨k', e⟩ := p
    by_cases h : k' = k
    · have he : eraseKey k ((k', e) :: rest) = rest := by simp [eraseKey, h]
      rw [he]
      exact List.sublist_cons_self _ _
    · have he : eraseKey k ((k', e) :: rest) = (k', e) :: eraseKey k rest := by
        simp [eraseKey, h]
      rw [he]
      exact List.Sublist.cons₂ _ ih

theorem eraseKey_length_le {K D : Type} [DecidableEq K] (k : K)
    (l : List (K × CacheEntry D)) : (eraseKey k l).length ≤ l.length :=
  (eraseKey_sublist k l).length_le

theorem setEntry_length_le {K D : Type} [DecidableEq K] (k : K) (e : CacheEntry D) :
    ∀ l : List (K × CacheEntry D), (setEntry k e l).length ≤ l.length + 1 := by
  intro l
  induction l with
  | nil => simp [setEntry]
  | cons p rest ih =>
    obtain ⟨k', e'⟩ := p
    by_cases h : k' = k <;> simp [setEntry, h] <;> omega

theorem keys_setEntry_subset {K D : Type} [DecidableEq K] (k : K) (e : CacheEntry D) :
    ∀ l : List (K × CacheEntry D),
      ((setEntry k e l).map Prod.fst) ⊆ k :: l.map Prod.fst := by
  intro l
  induction l with
  | nil => simp [setEntry]
  | cons p rest ih =>
    obtain ⟨k', e'⟩ := p
    by_cases hk : k' = k
    · intro a ha
      simp [setEntry, hk] at ha
      rcases ha with rfl | ha
      · exact List.mem_cons_self _ _
      · simp [ha]
    · intro a ha
      simp only [setEntry, if_neg hk, List.map_cons, List.mem_cons] at ha
      rcases ha with rfl | ha
      · simp
      · have := ih ha
        rcases List.mem_cons.mp this with rfl | hb
        · exact List.mem_cons_self _ _
        · simp [hb]

theorem nodup_keys_setEntry {K D : Type} [DecidableEq K] (k : K) (e : CacheEntry D) :
    ∀ l : List (K × CacheEntry D), (l.map Prod.fst).Nodup →
      ((setEntry k e l).map Prod.fst).Nodup := by
  intro l
  induction l with
  | nil => intro _; simp [setEntry]
  | cons p rest ih =>
    obtain ⟨k', e'⟩ := p
    intro hnd
    rw [List.map_cons, List.nodup_cons] at hnd
    by_cases hk : k' = k
    · subst hk
      have hse : setEntry k' e ((k', e') :: rest) = (k', e) :: rest := by
        simp [setEntry]
      rw [hse, List.map_cons, List.nodup_cons]
      exact hnd
    · simp only [setEntry, if_neg hk, List.map_cons, List.nodup_cons]
      refine ⟨?_, ih hnd.2⟩
      intro hmem
      rcases List.mem_cons.mp (keys_setEntry_subset k e rest hmem) with rfl | hb
      · exact hk rfl
      · exact hnd.1 hb

theorem length_filter_lt {α : Type} (p : α → Bool) (l : List α) (x : α)
    (hx : x ∈ l) (hpx : p x = false) : (l.filter p).length < l.length := by
  induction l with
  | nil => cases hx
  | cons a as ih =>
    rcases List.mem_cons.mp hx with rfl | hmem
    · simp only [List.filter_cons, hpx, Bool.false_eq_true, if_false, List.length_cons]
      exact Nat.lt_succ_of_le (List.length_filter_le p as)
    · by_cases hpa : p a = true
      · simp only [List.filter_cons, hpa, if_true, List.length_cons]
        exact Nat.succ_lt_succ (ih hmem)
      · have hpa' : p a = false := by simpa using hpa
        simp only [List.filter_cons, hpa', Bool.false_eq_true, if_false,
          List.length_cons]
        exact Nat.lt_succ_of_lt (ih hmem)

theorem sortByCreatedAt_length {K D : Type} (l : List (K × CacheEntry D)) :
    (sortByCreatedAt l).length = l.length :=
  (List.perm_insertionSort byCreatedAt l).length_eq

/-- `evict_oldest` written as a single filter, with the eviction count
expressed over the cache length. -/
theorem evict_oldest_eq {K D : Type} [DecidableEq K] (l : List (K × CacheEntry D)) :
    evict_oldest l = l.filter
      (fun p => !decide (p.1 ∈
        ((sortByCreatedAt l).take (max 1 (l.length / 10))).map Prod.fst)) := by
  simp only [evict_oldest]
  rw [sortByCreatedAt_length]

theorem evict_oldest_length_lt {K D : Type} [DecidableEq K]
    (l : List (K × CacheEntry D)) (h : 1 ≤ l.length) :
    (evict_oldest l).length < l.length := by
  have hperm : List.Perm (sortByCreatedAt l) l := List.perm_insertionSort byCreatedAt l
  have hlen : (sortByCreatedAt l).length = l.length := sortByCreatedAt_length l
  have hne : sortByCreatedAt l ≠ [] := by
    intro hnil
    rw [hnil] at hlen
    simp at hlen
    omega
  obtain ⟨hd, tl, hcons⟩ := List.exists_cons_of_ne_nil hne
  have hmemtake : hd ∈ (sortByCreatedAt l).take (max 1 (l.length / 10)) := by
    rw [hcons]
    have hpos : 1 ≤ max 1 (l.length / 10) := le_max_left _ _
    have : max 1 (l.length / 10) = (max 1 (l.length / 10) - 1) + 1 := by omega
    rw [this, List.take_succ_cons]
    exact List.mem_cons_self _ _
  have hkey : hd.1 ∈
      ((sortByCreatedAt l).take (max 1 (l.length / 10))).map Prod.fst :=
    List.mem_map_of_mem Prod.fst hmemtake
  have hmem : hd ∈ l := hperm.mem_iff.mp (by rw [hcons]; exact List.mem_cons_self _ _)
  rw [evict_oldest_eq]
  refine length_filter_lt _ l hd hmem ?_
  have hkey' : hd.1 ∈ List.take (max 1 (l.length / 10))
      ((sortByCreatedAt l).map Prod.fst) := by
    rw [← List.map_take]
    exact hkey
  simp [hkey, hkey']

theorem cacheSet_length_le {K D : Type} [DecidableEq K] (ms dttl : Nat)
    (h1 : 1 ≤ ms) (k : K) (d : D) (ttl? : Option Nat) (now : Nat)
    (l : List (K × CacheEntry D)) (hl : l.length ≤ ms) :
    (cacheSet ms dttl k d ttl? now l).length ≤ ms := by
  have key : ∀ c : List (K × CacheEntry D), c.length ≤ ms →
      (setEntry k (mkCacheEntry d (ttl?.getD dttl) now)
        (if c.length ≥ ms then evict_oldest c else c)).length ≤ ms := by
    intro c hc
    by_cases hge : c.length ≥ ms
    · have h1le : 1 ≤ c.length := le_trans h1 hge
      have hev : (evict_oldest c).length < c.length := evict_oldest_length_lt c h1le
      have hse := setEntry_length_le k (mkCacheEntry d (ttl?.getD dttl) now)
        (evict_oldest c)
      rw [if_pos hge]
      omega
    · rw [if_neg hge]
      have hse := setEntry_length_le k (mkCacheEntry d (ttl?.getD dttl) now) c
      omega
  have hc1 : (if l.length % 100 = 0 then cleanup_expired now l else l).length ≤ ms := by
    split
    · exact le_trans (List.length_filter_le _ l) hl
    · exact hl
  exact key _ hc1

theorem nodup_keys_cacheSet {K D : Type} [DecidableEq K] (ms dttl : Nat) (k : K)
    (d : D) (ttl? : Option Nat) (now : Nat) (l : List (K × CacheEntry D))
    (hnd : (l.map Prod.fst).Nodup) :
    ((cacheSet ms dttl k d ttl? now l).map Prod.fst).Nodup := by
  have branch : ∀ c : List (K × CacheEntry D), (c.map Prod.fst).Nodup →
      ((if c.length ≥ ms then evict_oldest c else c).map Prod.fst).Nodup := by
    intro c hc
    split
    · rw [evict_oldest_eq]
      exact hc.sublist ((List.filter_sublist c).map Prod.fst)
    · exact hc
  have hc1 : ((if l.length % 100 = 0 then cleanup_expired now l else l).map
      Prod.fst).Nodup := by
    split
    · exact hnd.sublist ((List.filter_sublist l).map Prod.fst)
    · exact hnd
  exact nodup_keys_setEntry k (mkCacheEntry d (ttl?.getD dttl) now) _ (branch _ hc1)

theorem applyOp_preserves {K D : Type} [DecidableEq K] (ms dttl : Nat)
    (h1 : 1 ≤ ms) (st : List (K × CacheEntry D)) (op : CacheOp K D)
    (hlen : st.length ≤ ms) (hnd : (st.map Prod.fst).Nodup) :
    (applyOp ms dttl st op).length ≤ ms ∧
      ((applyOp ms dttl st op).map Prod.fst).Nodup := by
  cases op with
  | get k now =>
    cases hl : lookupEntry k st with
    | none =>
      simp only [applyOp, cacheGet, hl]
      exact ⟨hlen, hnd⟩
    | some e =>
      by_cases hexp : is_expired e now = true
      · simp only [applyOp, cacheGet, hl, hexp, if_true]
        exact ⟨le_trans (eraseKey_length_le k st) hlen,
          hnd.sublist ((eraseKey_sublist k st).map Prod.fst)⟩
      · have hexp' : is_expired e now = false := by simpa using hexp
        simp only [applyOp, cacheGet, hl, hexp', Bool.false_eq_true, if_false]
        exact ⟨hlen, hnd⟩
  | set k d ttl? now =>
    exact ⟨cacheSet_length_le ms dttl h1 k d ttl? now st hlen,
      nodup_keys_cacheSet ms dttl k d ttl? now st hnd⟩
  | del k =>
    exact ⟨le_trans (eraseKey_length_le k st) hlen,
      hnd.sublist ((eraseKey_sublist k st).map Prod.fst)⟩
  | clear =>
    exact ⟨Nat.zero_le ms, List.nodup_nil⟩

theorem evict_oldest_perm_drop {K D : Type} [DecidableEq K]
    (l : List (K × CacheEntry D)) (h : (l.map Prod.fst).Nodup) :
    List.Perm (evict_oldest l)
      ((sortByCreatedAt l).drop (max 1 (l.length / 10))) := by
  have hperm : List.Perm (sortByCreatedAt l) l := List.perm_insertionSort byCreatedAt l
  have hnodupS : ((sortByCreatedAt l).map Prod.fst).Nodup :=
    (hperm.map Prod.fst).nodup_iff.mpr h
  have hsplit : (sortByCreatedAt l).take (max 1 (l.length / 10)) ++
      (sortByCreatedAt l).drop (max 1 (l.length / 10)) = sortByCreatedAt l :=
    List.take_append_drop _ _
  have hdisj :
      (((sortByCreatedAt l).take (max 1 (l.length / 10))).map Prod.fst).Disjoint
        (((sortByCreatedAt l).drop (max 1 (l.length / 10))).map Prod.fst) := by
    have hnd2 : (((sortByCreatedAt l).take (max 1 (l.length / 10))).map Prod.fst ++
        ((sortByCreatedAt l).drop (max 1 (l.length / 10))).map Prod.fst).Nodup := by
      rw [← List.map_append, hsplit]
      exact hnodupS
    exact (List.nodup_append.mp hnd2).2.2
  have hpredfalse : ∀ x ∈ (sortByCreatedAt l).take (max 1 (l.length / 10)),
      (fun p => !decide (p.1 ∈
        ((sortByCreatedAt l).take (max 1 (l.length / 10))).map Prod.fst)) x =
        false := by
    intro x hx
    have hin := List.mem_map_of_mem Prod.fst hx
    simp only [Bool.not_eq_false']
    exact decide_eq_true hin
  have hpredtrue : ∀ x ∈ (sortByCreatedAt l).drop (max 1 (l.length / 10)),
      (fun p => !decide (p.1 ∈
        ((sortByCreatedAt l).take (max 1 (l.length / 10))).map Prod.fst)) x =
        true := by
    intro x hx
    have hx1 : x.1 ∈
        ((sortByCreatedAt l).drop (max 1 (l.length / 10))).map Prod.fst :=
      List.mem_map_of_mem Prod.fst hx
    simp only [Bool.not_eq_true', decide_eq_false_iff_not]
    exact fun hin => hdisj hin hx1
  have hgen : ∀ q : (K × CacheEntry D) → Bool,
      (∀ x ∈ (sortByCreatedAt l).take (max 1 (l.length / 10)), q x = false) →
      (∀ x ∈ (sortByCreatedAt l).drop (max 1 (l.length / 10)), q x = true) →
      (sortByCreatedAt l).filter q =
        (sortByCreatedAt l).drop (max 1 (l.length / 10)) := by
    intro q hq1 hq2
    conv_lhs => rw [← hsplit]
    rw [List.filter_append,
      List.filter_eq_nil.mpr (fun x hx => by rw [hq1 x hx]; exact Bool.false_ne_true),
      List.filter_eq_self.mpr hq2, List.nil_append]
  rw [evict_oldest_eq]
  have hres := (hperm.filter
    (fun p => !decide (p.1 ∈
      ((sortByCreatedAt l).take (max 1 (l.length / 10))).map Prod.fst))).symm
  rw [hgen _ hpredfalse hpredtrue] at hres
  exact hres

theorem evict_oldest_length_eq {K D : Type} [DecidableEq K]
    (l : List (K × CacheEntry D)) (h : (l.map Prod.fst).Nodup)
    (h1 : 1 ≤ l.length) :
    (evict_oldest l).length + max 1 (l.length / 10) = l.length := by
  have hp := evict_oldest_perm_drop l h
  have hlen : (evict_oldest l).length =
      ((sortByCreatedAt l).drop (max 1 (l.length / 10))).length := hp.length_eq
  rw [hlen, List.length_drop, sortByCreatedAt_length]
  have h10 : l.length / 10 ≤ l.length := Nat.div_le_self _ _
  have hE : max 1 (l.length / 10) ≤ l.length := max_le h1 h10
  omega

theorem evict_oldest_keeps_newest {K D : Type} [DecidableEq K]
    (l : List (K × CacheEntry D)) (h : (l.map Prod.fst).Nodup) :
    ∀ y ∈ (sortByCreatedAt l).take (max 1 (l.length / 10)),
      ∀ x ∈ evict_oldest l, y.2.created_at ≤ x.2.created_at := by
  intro y hy x hx
  have hsorted : List.Sorted byCreatedAt (sortByCreatedAt l) :=
    List.sorted_insertionSort byCreatedAt l
  have hx' : x ∈ (sortByCreatedAt l).drop (max 1 (l.length / 10)) :=
    (evict_oldest_perm_drop l h).mem_iff.mp hx
  have hpair : List.Pairwise byCreatedAt
      ((sortByCreatedAt l).take (max 1 (l.length / 10)) ++
        (sortByCreatedAt l).drop (max 1 (l.length / 10))) := by
    rw [List.take_append_drop]
    exact hsorted
  exact (List.pairwise_append.mp hpair).2.2 y hy x hx'

theorem cacheSet_no_cleanup {K D : Type} [DecidableEq K] (ms dttl : Nat) (k : K)
    (d : D) (ttl? : Option Nat) (now : Nat) (l : List (K × CacheEntry D))
    (hge : ms ≤ l.length) (hmod : l.length % 100 ≠ 0) :
    cacheSet ms dttl k d ttl? now l =
      setEntry k (mkCacheEntry d (ttl?.getD dttl) now) (evict_oldest l) := by
  simp only [cacheSet, if_neg hmod, if_pos (ge_iff_le.mpr hge)]

/-- C2 amended: for `max_size ≥ 1`, the number of cache entries never
exceeds `max_size` over any operation sequence from the empty cache (and
keys stay unique); `set` invoked when the entry count is at least `max_size`
AND not a multiple of 100 first evicts exactly `max(1, count / 10)` entries
— at least 10% and at least one — chosen oldest-by-created-at, in one pass,
before storing the new entry.  (When the count is a multiple of 100,
expired entries are removed first and the eviction only runs if the count is
still at least `max_size`, which is what the counterexample exhibits.) -/
theorem c2_cache_bound (K D : Type) [DecidableEq K] (ms dttl : Nat)
    (h1 : 1 ≤ ms) :
    (∀ ops : List (CacheOp K D),
      (runOps ms dttl ops).length ≤ ms ∧
      ((runOps ms dttl ops).map Prod.fst).Nodup) ∧
    (∀ (st : List (K × CacheEntry D)) (k : K) (d : D) (ttl? : Option Nat)
      (now : Nat), (st.map Prod.fst).Nodup → ms ≤ st.length →
      st.length % 100 ≠ 0 →
      cacheSet ms dttl k d ttl? now st =
        setEntry k (mkCacheEntry d (ttl?.getD dttl) now) (evict_oldest st) ∧
      (evict_oldest st).length + max 1 (st.length / 10) = st.length ∧
      (∀ y ∈ (sortByCreatedAt st).take (max 1 (st.length / 10)),
        ∀ x ∈ evict_oldest st, y.2.created_at ≤ x.2.created_at)) := by
  constructor
  · have main : ∀ (ops : List (CacheOp K D)) (st : List (K × CacheEntry D)),
        st.length ≤ ms → (st.map Prod.fst).Nodup →
        (ops.foldl (applyOp ms dttl) st).length ≤ ms ∧
          ((ops.foldl (applyOp ms dttl) st).map Prod.fst).Nodup := by
      intro ops
      induction ops with
      | nil => intro st h2 h3; exact ⟨h2, h3⟩
      | cons op rest ih =>
        intro st h2 h3
        rw [List.foldl_cons]
        obtain ⟨ha, hb⟩ := applyOp_preserves ms dttl h1 st op h2 h3
        exact ih _ ha hb
    intro ops
    exact main ops [] (by simp) (by simp)
  · intro st k d ttl? now hnd hge hmod
    have h1le : 1 ≤ st.length := le_trans h1 hge
    exact ⟨cacheSet_no_cleanup ms dttl k d ttl? now st hge hmod,
      evict_oldest_length_eq st hnd h1le,
      evict_oldest_keeps_newest st hnd⟩

theorem c2_cache_bound_witness :
    (runOps 2 300 [CacheOp.set (0 : Nat) (10 : Nat) none 0,
        CacheOp.set 1 11 none 1, CacheOp.set 2 12 none 2]).length ≤ 2 ∧
    cacheSet 1 300 (5 : Nat) (50 : Nat) none 9 [(0, ⟨40, 3, 7⟩)] =
      setEntry 5 (mkCacheEntry 50 300 9) (evict_oldest [(0, ⟨40, 3, 7⟩)]) := by
  constructor
  · exact ((c2_cache_bound Nat Nat 2 300 (by decide)).1
      [CacheOp.set 0 10 none 0, CacheOp.set 1 11 none 1,
        CacheOp.set 2 12 none 2]).1
  · exact ((c2_cache_bound Nat Nat 1 300 (by decide)).2
      [(0, ⟨40, 3, 7⟩)] 5 50 none 9 (by decide) (by decide) (by decide)).1
